import Mathlib

/-!
Verification development for the HermitShell agent control loop
(`crab/agent.py`).  The Python source is shallowly embedded: strings are
`List Char`, JSON values are `PyVal`, the LLM backend / approval gate /
subprocess executor are oracles, and each Python function is translated
to a Lean definition of the same name.
-/

set_option maxHeartbeats 1000000
set_option maxRecDepth 10000

/-- Python/JSON deserialized values, as produced by `json.loads`.
Floats keep their source literal (enough to decide Python truthiness). -/
inductive PyVal where
  | str (s : String)
  | num (n : Int)
  | float (lit : String)
  | bool (b : Bool)
  | null
  | list (xs : List PyVal)
  | obj (fields : List (String × PyVal))

/-- Last-occurrence lookup: Python dicts built by `json.loads` keep the
last value bound to a duplicated key. -/
def lookupLast (k : String) : List (String × PyVal) → Option PyVal
  | [] => none
  | (k', v) :: rest =>
    match lookupLast k rest with
    | some w => some w
    | none => if k' == k then some v else none

/-- Embedding of `d.get(k, dflt)` on the parsed dict. -/
def dictGet (d : List (String × PyVal)) (k : String) (dflt : PyVal) : PyVal :=
  (lookupLast k d).getD dflt

/-- Zero test for a float literal: false for `NaN`/`Infinity` (no digits),
true when every mantissa digit is `0` (exponent cannot change that). -/
def floatIsZero (lit : String) : Bool :=
  let ds := lit.toList.takeWhile (fun c => c ≠ 'e' ∧ c ≠ 'E')
  ds.any Char.isDigit && ds.all (fun c => !c.isDigit || c == '0')

/-- Python truthiness (`if value:`) on deserialized JSON values. -/
def truthy : PyVal → Bool
  | .str s => !(s == "")
  | .num n => !(n == 0)
  | .float lit => !floatIsZero lit
  | .bool b => b
  | .null => false
  | .list xs => !xs.isEmpty
  | .obj fields => !fields.isEmpty

/-- ASCII whitespace recognized by Python `str.strip` / `str.split`. -/
def pySpace (c : Char) : Bool :=
  c == ' ' || c == '\t' || c == '\n' || c == '\r' || c == '\x0b' || c == '\x0c'

/-- Embedding of `s.strip()`. -/
def pyStrip (s : List Char) : List Char :=
  ((s.dropWhile pySpace).reverse.dropWhile pySpace).reverse

/-- Embedding of `s.strip().split()[0]` when a token exists, `[]` otherwise. -/
def firstTok (s : List Char) : List Char :=
  (s.dropWhile pySpace).takeWhile (fun c => !pySpace c)

/-- The fixed denylist from `is_dangerous`. -/
def dangerous_tools : List (List Char) :=
  ["rm".toList, "sudo".toList, "su".toList, "shutdown".toList, "reboot".toList,
   "nmap".toList, "kill".toList, "docker".toList, "spawn_agent".toList]

/-- Source `is_dangerous(cmd)`: the base token is dangerous when it equals a
denylist entry or starts with one (`base == tool or base.startswith(tool)`). -/
def is_dangerous (cmd : List Char) : Bool :=
  let base := if (pyStrip cmd).isEmpty then [] else firstTok cmd
  dangerous_tools.any (fun tool => base == tool || tool.isPrefixOf base)

/-- The classifier described by the words of claim C1: dangerous when the
first token equals, or is a prefix of, a denylist entry.  Kept separate
from `is_dangerous`, which is translated from the source. -/
def claimC1dangerous (cmd : List Char) : Bool :=
  let base := if (pyStrip cmd).isEmpty then [] else firstTok cmd
  dangerous_tools.any (fun tool => base == tool || base.isPrefixOf tool)

/-- Index of the first character satisfying `q`. -/
def findFirst (q : Char → Bool) : List Char → Option Nat
  | [] => none
  | c :: cs => if q c then some 0 else (findFirst q cs).map (· + 1)

/-- Index of the last character satisfying `q`. -/
def findLast (q : Char → Bool) : List Char → Option Nat
  | [] => none
  | c :: cs =>
    match findLast q cs with
    | some k => some (k + 1)
    | none => if q c then some 0 else none

/-- Span matched by the greedy regex search (first \x7b to last \x7d): from the first
`\x7b` to the last `\x7d`, provided the first strictly precedes the last
(the regex needs at least one character for the closing brace). -/
def spanOf (s : List Char) : Option (Nat × Nat) :=
  match findFirst (fun c => c == '{') s, findLast (fun c => c == '}') s with
  | some i, some j => if i < j then some (i, j) else none
  | _, _ => none

/- JSON deserialization (`json.loads`), modelling the CPython default
decoder: objects, arrays, strings with escapes, integers, floats, the
literals `true`/`false`/`null` and the extensions `NaN`/`Infinity`,
rejecting raw control characters in strings and trailing garbage. -/

/-- Whitespace skipped between JSON tokens. -/
def skipWs (s : List Char) : List Char :=
  s.dropWhile (fun c => c == ' ' || c == '\t' || c == '\n' || c == '\r')

/-- Value of a hex digit, if any. -/
def hexDigit (c : Char) : Option Nat :=
  if '0' ≤ c ∧ c ≤ '9' then some (c.toNat - '0'.toNat)
  else if 'a' ≤ c ∧ c ≤ 'f' then some (c.toNat - 'a'.toNat + 10)
  else if 'A' ≤ c ∧ c ≤ 'F' then some (c.toNat - 'A'.toNat + 10)
  else none

/-- Single-character escapes inside JSON strings. -/
def escChar (e : Char) : Option Char :=
  if e == '"' then some '"'
  else if e == '\\' then some '\\'
  else if e == '/' then some '/'
  else if e == 'b' then some '\x08'
  else if e == 'f' then some '\x0c'
  else if e == 'n' then some '\n'
  else if e == 'r' then some '\r'
  else if e == 't' then some '\t'
  else none

/-- Body of a JSON string literal, after the opening quote: returns the
decoded characters and the input past the closing quote. -/
def parseStrBody : List Char → Option (List Char × List Char)
  | [] => none
  | c :: rest =>
    if c == '"' then some ([], rest)
    else if c == '\\' then
      match rest with
      | [] => none
      | e :: rest2 =>
        if e == 'u' then
          match rest2 with
          | h1 :: h2 :: h3 :: h4 :: rest3 =>
            match hexDigit h1, hexDigit h2, hexDigit h3, hexDigit h4 with
            | some a, some b, some c2, some d =>
              match parseStrBody rest3 with
              | some (cs, r) =>
                some (Char.ofNat (((a * 16 + b) * 16 + c2) * 16 + d) :: cs, r)
              | none => none
            | _, _, _, _ => none
          | _ => none
        else
          match escChar e with
          | some ec =>
            match parseStrBody rest2 with
            | some (cs, r) => some (ec :: cs, r)
            | none => none
          | none => none
    else if c.toNat < 32 then none
    else
      match parseStrBody rest with
      | some (cs, r) => some (c :: cs, r)
      | none => none

/-- Numeric value of a digit string. -/
def digitsVal (ds : List Char) : Nat :=
  ds.foldl (fun a c => a * 10 + (c.toNat - '0'.toNat)) 0

/-- Does `lit` begin the input?  Returns the remainder if so. -/
def stripLit : List Char → List Char → Option (List Char)
  | [], s => some s
  | _, [] => none
  | l :: ls, c :: cs => if c == l then stripLit ls cs else none

/-- JSON number (int or float), starting at a `-` or a digit.  Fraction
and exponent parts are consumed only when complete, mirroring the
decoder NUMBER_RE regex of CPython. -/
def parseNum (s : List Char) : Option (PyVal × List Char) :=
  let (sgn, s1) :=
    match s with
    | '-' :: r => (['-'], r)
    | _ => (([] : List Char), s)
  let ds := s1.takeWhile Char.isDigit
  let r1 := s1.dropWhile Char.isDigit
  if ds.isEmpty then none
  else if ds.head? == some '0' && decide (1 < ds.length) then none
  else
    let (fr, r2) :=
      match r1 with
      | '.' :: t =>
        let f := t.takeWhile Char.isDigit
        if f.isEmpty then (([] : List Char), r1)
        else ('.' :: f, t.dropWhile Char.isDigit)
      | _ => (([] : List Char), r1)
    let (ex, r3) :=
      match r2 with
      | e :: t =>
        if e == 'e' || e == 'E' then
          let (sg2, t2) :=
            match t with
            | '+' :: u => ((['+'] : List Char), u)
            | '-' :: u => ((['-'] : List Char), u)
            | _ => (([] : List Char), t)
          let ed := t2.takeWhile Char.isDigit
          if ed.isEmpty then (([] : List Char), r2)
          else (e :: (sg2 ++ ed), t2.dropWhile Char.isDigit)
        else (([] : List Char), r2)
      | [] => (([] : List Char), r2)
    if fr.isEmpty && ex.isEmpty then
      some (.num (if sgn.isEmpty then (digitsVal ds : Int) else -(digitsVal ds : Int)), r1)
    else
      some (.float ((sgn ++ ds ++ fr ++ ex).asString), r3)

mutual

/-- One JSON value (leading whitespace allowed); fuel bounds nesting. -/
def parseVal : Nat → List Char → Option (PyVal × List Char)
  | 0, _ => none
  | fuel + 1, s =>
    match skipWs s with
    | [] => none
    | '{' :: r =>
      (match skipWs r with
       | '}' :: r2 => some (.obj [], r2)
       | r2 =>
         match parseMembers fuel r2 with
         | some (ms, r3) => some (.obj ms, r3)
         | none => none)
    | '[' :: r =>
      (match skipWs r with
       | ']' :: r2 => some (.list [], r2)
       | r2 =>
         match parseElems fuel r2 with
         | some (vs, r3) => some (.list vs, r3)
         | none => none)
    | '"' :: r =>
      (match parseStrBody r with
       | some (cs, r2) => some (.str cs.asString, r2)
       | none => none)
    | 't' :: r => (stripLit "rue".toList r).map (fun rest => (.bool true, rest))
    | 'f' :: r => (stripLit "alse".toList r).map (fun rest => (.bool false, rest))
    | 'n' :: r => (stripLit "ull".toList r).map (fun rest => (.null, rest))
    | 'N' :: r => (stripLit "aN".toList r).map (fun rest => (.float "NaN", rest))
    | 'I' :: r => (stripLit "nfinity".toList r).map (fun rest => (.float "Infinity", rest))
    | '-' :: r =>
      (match stripLit "Infinity".toList r with
       | some rest => some (.float "-Infinity", rest)
       | none => parseNum ('-' :: r))
    | c :: r => if c.isDigit then parseNum (c :: r) else none

/-- Members of a JSON object, positioned at a key (whitespace skipped). -/
def parseMembers : Nat → List Char → Option (List (String × PyVal) × List Char)
  | 0, _ => none
  | fuel + 1, s =>
    match s with
    | '"' :: r =>
      (match parseStrBody r with
       | none => none
       | some (k, r2) =>
         match skipWs r2 with
         | ':' :: r3 =>
           (match parseVal fuel r3 with
            | none => none
            | some (v, r4) =>
              match skipWs r4 with
              | ',' :: r5 =>
                (match parseMembers fuel (skipWs r5) with
                 | some (ms, r6) => some ((k.asString, v) :: ms, r6)
                 | none => none)
              | '}' :: r5 => some ([(k.asString, v)], r5)
              | _ => none)
         | _ => none)
    | _ => none

/-- Elements of a JSON array, positioned at a value. -/
def parseElems : Nat → List Char → Option (List PyVal × List Char)
  | 0, _ => none
  | fuel + 1, s =>
    match parseVal fuel s with
    | none => none
    | some (v, r) =>
      match skipWs r with
      | ',' :: r2 =>
        (match parseElems fuel r2 with
         | some (vs, r3) => some (v :: vs, r3)
         | none => none)
      | ']' :: r2 => some ([v], r2)
      | _ => none

end

/-- Embedding of `json.loads`: the whole input must be one value plus whitespace. -/
def loads (s : List Char) : Option PyVal :=
  match parseVal (2 * s.length + 2) s with
  | some (v, rest) => if (skipWs rest).isEmpty then some v else none
  | none => none

/-- Source `extract_json_fields(response)`: greedy brace span, then `json.loads`;
any failure degrades to `(\x7b\x7d, None)`.  A successful parse of a span that
starts with a brace is necessarily an object, so the non-object arm of the
match is unreachable. -/
def extract_json_fields (response : List Char) :
    List (String × PyVal) × Option (List Char) :=
  match spanOf response with
  | none => ([], none)
  | some (i, j) =>
    let js := (response.drop i).take (j + 1 - i)
    match loads js with
    | some (.obj d) => (d, some js)
    | _ => ([], none)

/-- Source `extract_command(response)`: the `terminal` field when truthy. -/
def extract_command (response : List Char) : Option PyVal :=
  let t := dictGet (extract_json_fields response).1 "terminal" (.str "")
  if truthy t then some t else none

/-- Source `extract_panel_actions(response)`: the `panelActions` field if it is a
list, else the empty list. -/
def extract_panel_actions (response : List Char) : PyVal :=
  match dictGet (extract_json_fields response).1 "panelActions" (.list []) with
  | .list xs => .list xs
  | _ => .list []

/-- Source `extract_user_id(response)`. -/
def extract_user_id (response : List Char) : PyVal :=
  dictGet (extract_json_fields response).1 "userId" (.str "")

/-- Source `extract_action(response)`. -/
def extract_action (response : List Char) : PyVal :=
  dictGet (extract_json_fields response).1 "action" (.str "")

/-- Source `extract_message(response)`: the `message` field when truthy; otherwise
the raw text before the brace span (or the whole text), stripped. -/
def extract_message (response : List Char) : PyVal :=
  let msg := dictGet (extract_json_fields response).1 "message" (.str "")
  if truthy msg then msg
  else
    match spanOf response with
    | some (i, _) => .str ((pyStrip (response.take i)).asString)
    | none => .str ((pyStrip response).asString)

/- The approval gate (`wait_for_approval`).  The external world is a pair
of marker traces: `appr t` / `deny t` say whether the corresponding lock
file exists at poll number `t` of the gate.  The gate deletes at most one
marker, upon returning. -/

/-- Which lock file the gate deleted. -/
inductive Marker where
  | approvedMarker
  | deniedMarker
deriving DecidableEq

/-- Observable outcome of one `wait_for_approval` call: the returned
boolean, the marker removed (if any), and how many 1-second sleeps
(equivalently, completed no-signal polls) preceded the decision. -/
structure GateOut where
  approved : Bool
  removed : Option Marker
  sleeps : Nat
deriving DecidableEq

/-- The polling loop of `wait_for_approval`, from `waited = w` with
`fuel = 600 - w` iterations left. -/
def waitGo (appr deny : Nat → Bool) : Nat → Nat → GateOut
  | 0, w => ⟨false, none, w⟩
  | fuel + 1, w =>
    if appr w then ⟨true, some .approvedMarker, w⟩
    else if deny w then ⟨false, some .deniedMarker, w⟩
    else waitGo appr deny fuel (w + 1)

/-- Source `wait_for_approval()`: up to 600 polls, one per second. -/
def wait_for_approval (appr deny : Nat → Bool) : GateOut :=
  waitGo appr deny 600 0

/- The conversation loop (`main`).  The backend, the gate decision and the
subprocess are oracles; the loop body is translated directly. -/

/-- One chat message. -/
structure Message where
  role : String
  content : List Char

/-- Outcome of `subprocess.run`: captured output, or a caught exception
rendered as text (timeouts included). -/
inductive ExecResult where
  | ok (out : List Char)
  | exn (msg : List Char)

/-- External collaborators of one invocation: the LLM proxy, the approval
gate decision per iteration, and the shell. -/
structure Oracles where
  llm : List Message → List Char
  approval : Nat → Bool
  exec : List Char → ExecResult

/-- The JSON record printed as the final output (exactly these fields). -/
structure FinalJson where
  userId : PyVal
  message : PyVal
  action : PyVal
  terminal : PyVal
  panelActions : PyVal

/-- What the loop emits on a terminal reply. -/
inductive Final where
  | json (f : FinalJson)
  | plain (message : PyVal)

/-- The unhandled Python faults the embedding can surface. -/
inductive Fault where
  | attrError
deriving DecidableEq

/-- Result of one loop iteration. -/
inductive StepOut where
  | next (msgs : List Message)
  | done (msgs : List Message) (out : Final)

/-- The `try: subprocess.run \x2e\x2e\x2e except` block plus its feedback
message: empty output is replaced by the canned placeholder, failures
become `ERROR executing command:` text. -/
def runCommand (o : Oracles) (msgs : List Message) (cmd : String) : List Message :=
  match o.exec cmd.toList with
  | .ok out =>
    let out2 := if out.isEmpty then "Command executed successfully with no output.".toList else out
    msgs ++ [⟨"user", "[INTERNAL_COMMAND_OUTPUT]\n".toList ++ out2⟩]
  | .exn e => msgs ++ [⟨"user", "ERROR executing command: ".toList ++ e⟩]

/-- The terminal (`else`) branch of the loop: build the final artifact.
Note the printed `panelActions` comes from `json_fields.get` directly,
not from `extract_panel_actions`. -/
def finalize (response : List Char) : Final :=
  let json_fields := (extract_json_fields response).1
  if json_fields.isEmpty then .plain (extract_message response)
  else
    .json ⟨extract_user_id response, extract_message response,
           extract_action response, .str "",
           dictGet json_fields "panelActions" (.list [])⟩

/-- One pass of the `while` body in `main`.  `n` is the current iteration
number (used to index the gate oracle).  `is_dangerous` is applied to the
extracted command before `hitl` is consulted, so a truthy non-string
`terminal` value is an unhandled `AttributeError` (`.strip` on a
non-string). -/
def step (o : Oracles) (hitl : Bool) (n : Nat) (msgs : List Message) :
    Except Fault StepOut :=
  match extract_command (o.llm msgs) with
  | some (.str cmd) =>
    if is_dangerous cmd.toList && hitl then
      if o.approval n then
        .ok (.next (runCommand o (msgs ++ [⟨"assistant", o.llm msgs⟩]) cmd))
      else
        .ok (.next ((msgs ++ [⟨"assistant", o.llm msgs⟩]) ++
          [⟨"user", "ERROR: Command denied by user".toList⟩]))
    else .ok (.next (runCommand o (msgs ++ [⟨"assistant", o.llm msgs⟩]) cmd))
  | some _ => .error .attrError
  | none =>
    .ok (.done (msgs ++ [⟨"assistant", o.llm msgs⟩]) (finalize (o.llm msgs)))

/-- The `while iters < max_iters` loop, with `fuel = max_iters - iters`. -/
def loopGo (o : Oracles) (hitl : Bool) :
    Nat → Nat → List Message → Except Fault (List Message × Option Final)
  | 0, _, msgs => .ok (msgs, none)
  | fuel + 1, iters, msgs =>
    match step o hitl (iters + 1) msgs with
    | .error f => .error f
    | .ok (.next msgs2) => loopGo o hitl fuel (iters + 1) msgs2
    | .ok (.done msgs2 out) => .ok (msgs2, some out)

/-- The loop of `main` on the initial message list (system prompt, history and
user message construction are external collaborators). -/
def mainLoop (o : Oracles) (hitl : Bool) (initMsgs : List Message) :
    Except Fault (List Message × Option Final) :=
  loopGo o hitl 5 0 initMsgs

/-! Helper lemmas. -/

theorem dropWhile_head_not (p : Char → Bool) :
    ∀ (l : List Char) (c : Char) (t : List Char),
      l.dropWhile p = c :: t → p c = false := by
  intro l
  induction l with
  | nil => intro c t h; simp [List.dropWhile] at h
  | cons a l ih =>
    intro c t h
    by_cases hp : p a
    · rw [List.dropWhile_cons_of_pos hp] at h
      exact ih c t h
    · rw [List.dropWhile_cons_of_neg hp] at h
      cases h
      simpa using hp

theorem strip_nil_dropWhile (cmd : List Char) (h : pyStrip cmd = []) :
    cmd.dropWhile pySpace = [] := by
  unfold pyStrip at h
  rw [List.reverse_eq_nil_iff, List.dropWhile_eq_nil_iff] at h
  cases hd : cmd.dropWhile pySpace with
  | nil => rfl
  | cons c t =>
    have hc := dropWhile_head_not pySpace cmd c t hd
    have hm : pySpace c = true := h c (by simp [hd])
    rw [hm] at hc
    cases hc

theorem dangerous_base_eq (cmd : List Char) :
    (if (pyStrip cmd).isEmpty then [] else firstTok cmd) = firstTok cmd := by
  by_cases h : (pyStrip cmd).isEmpty
  · have hs : pyStrip cmd = [] := by simpa [List.isEmpty_iff] using h
    have hd := strip_nil_dropWhile cmd hs
    simp [h, firstTok, hd]
  · simp [h]

theorem waitGo_none (appr deny : Nat → Bool) :
    ∀ (fuel w : Nat),
      (∀ u, w ≤ u → u < w + fuel → appr u = false ∧ deny u = false) →
      waitGo appr deny fuel w = ⟨false, none, w + fuel⟩ := by
  intro fuel
  induction fuel with
  | zero => intro w _; simp [waitGo]
  | succ n ih =>
    intro w h
    have h0 := h w (le_refl w) (by omega)
    rw [waitGo, h0.1, h0.2]
    simp only [Bool.false_eq_true, if_false]
    have := ih (w + 1) (fun u hu1 hu2 => h u (by omega) (by omega))
    rw [this]
    congr 1
    omega

theorem waitGo_appr (appr deny : Nat → Bool) :
    ∀ (fuel w t : Nat), w ≤ t → t < w + fuel →
      (∀ u, w ≤ u → u < t → appr u = false ∧ deny u = false) →
      appr t = true →
      waitGo appr deny fuel w = ⟨true, some .approvedMarker, t⟩ := by
  intro fuel
  induction fuel with
  | zero => intro w t h1 h2; omega
  | succ n ih =>
    intro w t hwt hlt hpre ha
    rcases Nat.eq_or_lt_of_le hwt with heq | hlt2
    · subst heq; rw [waitGo, ha]; simp
    · have h0 := hpre w (le_refl w) hlt2
      rw [waitGo, h0.1, h0.2]
      simp only [Bool.false_eq_true, if_false]
      exact ih (w + 1) t (by omega) (by omega)
        (fun u hu1 hu2 => hpre u (by omega) hu2) ha

theorem waitGo_deny (appr deny : Nat → Bool) :
    ∀ (fuel w t : Nat), w ≤ t → t < w + fuel →
      (∀ u, w ≤ u → u < t → appr u = false ∧ deny u = false) →
      appr t = false → deny t = true →
      waitGo appr deny fuel w = ⟨false, some .deniedMarker, t⟩ := by
  intro fuel
  induction fuel with
  | zero => intro w t h1 h2; omega
  | succ n ih =>
    intro w t hwt hlt hpre ha hd
    rcases Nat.eq_or_lt_of_le hwt with heq | hlt2
    · subst heq; rw [waitGo, ha, hd]; simp
    · have h0 := hpre w (le_refl w) hlt2
      rw [waitGo, h0.1, h0.2]
      simp only [Bool.false_eq_true, if_false]
      exact ih (w + 1) t (by omega) (by omega)
        (fun u hu1 hu2 => hpre u (by omega) hu2) ha hd

/-! Claim theorems. -/

/-- C1 counterexample: the claim says dangerous exactly when the first
token equals or is a prefix of a denylist entry, but on `rmdir /tmp` the
token `rmdir` is a prefix of no entry (nor equal to one) while the code
classifies it dangerous, because the code tests the converse direction
(`base.startswith(tool)`). -/
theorem C1_counterexample :
    is_dangerous ("rmdir /tmp".toList) = true
    ∧ claimC1dangerous ("rmdir /tmp".toList) = false := by
  constructor <;> rfl

/-- C1 (amended): `is_dangerous` splits on whitespace, takes the first
token, and returns true exactly when some entry of the fixed denylist is
a prefix of (or equal to) that token; an empty or all-whitespace command
returns false; first tokens `rm`, `sudo`, `docker` yield true and
`ls -la` yields false.  The classifier is a total function, hence
deterministic. -/
theorem C1_risk_classifier :
    (∀ cmd : List Char,
      (is_dangerous cmd = true ↔ ∃ t ∈ dangerous_tools, t <+: firstTok cmd))
    ∧ (∀ cmd : List Char, (∀ c ∈ cmd, pySpace c = true) → is_dangerous cmd = false)
    ∧ is_dangerous ("rm".toList) = true
    ∧ is_dangerous ("sudo".toList) = true
    ∧ is_dangerous ("docker".toList) = true
    ∧ is_dangerous ("ls -la".toList) = false := by
  refine ⟨?_, ?_, rfl, rfl, rfl, rfl⟩
  · intro cmd
    unfold is_dangerous
    rw [dangerous_base_eq]
    simp only [List.any_eq_true, Bool.or_eq_true, beq_iff_eq,
      List.isPrefixOf_iff_prefix]
    constructor
    · rintro ⟨t, ht, heq | hpre⟩
      · exact ⟨t, ht, heq ▸ List.prefix_refl _⟩
      · exact ⟨t, ht, hpre⟩
    · rintro ⟨t, ht, hpre⟩
      exact ⟨t, ht, Or.inr hpre⟩
  · intro cmd h
    have hd : cmd.dropWhile pySpace = [] := List.dropWhile_eq_nil_iff.mpr h
    have hs : pyStrip cmd = [] := by unfold pyStrip; rw [hd]; rfl
    simp [is_dangerous, hs, dangerous_tools]

theorem C1_witness :
    is_dangerous ("  \t ".toList) = false ∧ is_dangerous ("rm -rf /".toList) = true :=
  ⟨C1_risk_classifier.2.1 _ (by decide),
   (C1_risk_classifier.1 _).mpr ⟨"rm".toList, by decide, by decide⟩⟩

/-- C4: the gate polls once per second for at most 600 seconds.  If the
approved marker is there at the first signalled poll `t`, it returns
approved, removing that marker, after `t` sleeps; if the denied marker is
(and the approved one is not), it returns denied, removing that marker;
if no marker ever appears during the 600 polls, it returns denied after
the full ceiling without removing anything (fail-closed timeout). -/
theorem C4_approval_gate :
    (∀ appr deny : Nat → Bool, ∀ t : Nat, t < 600 →
      (∀ u, u < t → appr u = false ∧ deny u = false) → appr t = true →
      wait_for_approval appr deny = ⟨true, some .approvedMarker, t⟩)
    ∧ (∀ appr deny : Nat → Bool, ∀ t : Nat, t < 600 →
      (∀ u, u < t → appr u = false ∧ deny u = false) →
      appr t = false → deny t = true →
      wait_for_approval appr deny = ⟨false, some .deniedMarker, t⟩)
    ∧ (∀ appr deny : Nat → Bool,
      (∀ u, u < 600 → appr u = false ∧ deny u = false) →
      wait_for_approval appr deny = ⟨false, none, 600⟩) := by
  refine ⟨?_, ?_, ?_⟩
  · intro appr deny t hlt hpre ha
    exact waitGo_appr appr deny 600 0 t (Nat.zero_le t) (by omega)
      (fun u _ hu => hpre u hu) ha
  · intro appr deny t hlt hpre ha hd
    exact waitGo_deny appr deny 600 0 t (Nat.zero_le t) (by omega)
      (fun u _ hu => hpre u hu) ha hd
  · intro appr deny h
    exact waitGo_none appr deny 600 0 (fun u _ hu => h u (by omega))

theorem C4_witness :
    wait_for_approval (fun t => t == 3) (fun _ => false)
      = ⟨true, some .approvedMarker, 3⟩
    ∧ wait_for_approval (fun _ => false) (fun t => t == 2)
      = ⟨false, some .deniedMarker, 2⟩
    ∧ wait_for_approval (fun _ => false) (fun _ => false) = ⟨false, none, 600⟩ :=
  ⟨C4_approval_gate.1 _ _ 3 (by decide) (by decide) (by decide),
   C4_approval_gate.2.1 _ _ 2 (by decide) (by decide) (by decide) (by decide),
   C4_approval_gate.2.2 _ _ (by decide)⟩

/-- C9 (implicit): the approved marker is checked before the denied one at
every poll, so when both are present at the first signalled poll the gate
returns approved and removes only the approved marker; and a marker that
exists at invocation time is consumed at poll 0, before any sleep. -/
theorem C9_gate_order :
    (∀ appr deny : Nat → Bool, ∀ t : Nat, t < 600 →
      (∀ u, u < t → appr u = false ∧ deny u = false) →
      appr t = true → deny t = true →
      wait_for_approval appr deny = ⟨true, some .approvedMarker, t⟩)
    ∧ (∀ appr deny : Nat → Bool, (appr 0 || deny 0) = true →
      (wait_for_approval appr deny).sleeps = 0) := by
  constructor
  · intro appr deny t hlt hpre ha _
    exact waitGo_appr appr deny 600 0 t (Nat.zero_le t) (by omega)
      (fun u _ hu => hpre u hu) ha
  · intro appr deny h
    have hstep : wait_for_approval appr deny =
        (if appr 0 then ⟨true, some .approvedMarker, 0⟩
         else if deny 0 then ⟨false, some .deniedMarker, 0⟩
         else waitGo appr deny 599 1) := rfl
    rw [hstep]
    cases ha : appr 0 with
    | true => simp
    | false =>
      cases hd : deny 0 with
      | true => simp
      | false => rw [ha, hd] at h; cases h

theorem findFirst_get (q : Char → Bool) :
    ∀ (s : List Char) (i : Nat), findFirst q s = some i →
      ∃ c, s[i]? = some c ∧ q c = true := by
  intro s
  induction s with
  | nil => intro i h; simp [findFirst] at h
  | cons a t ih =>
    intro i h
    unfold findFirst at h
    by_cases hq : q a
    · rw [if_pos hq] at h
      cases h
      exact ⟨a, by simp, hq⟩
    · rw [if_neg hq] at h
      rw [Option.map_eq_some'] at h
      obtain ⟨i2, hi2, hi⟩ := h
      obtain ⟨c, hc, hqc⟩ := ih i2 hi2
      exact ⟨c, by simpa [← hi] using hc, hqc⟩

theorem findLast_get (q : Char → Bool) :
    ∀ (s : List Char) (j : Nat), findLast q s = some j →
      ∃ c, s[j]? = some c ∧ q c = true := by
  intro s
  induction s with
  | nil => intro j h; simp [findLast] at h
  | cons a t ih =>
    intro j h
    unfold findLast at h
    cases hl : findLast q t with
    | some k =>
      rw [hl] at h
      cases h
      obtain ⟨c, hc, hqc⟩ := ih k hl
      exact ⟨c, by simpa using hc, hqc⟩
    | none =>
      rw [hl] at h
      by_cases hq : q a
      · rw [if_pos hq] at h
        cases h
        exact ⟨a, by simp, hq⟩
      · rw [if_neg hq] at h
        cases h

theorem findFirst_append_of_none (q : Char → Bool) :
    ∀ (p s : List Char), (∀ c ∈ p, q c = false) →
      findFirst q (p ++ s) = (findFirst q s).map (· + p.length) := by
  intro p
  induction p with
  | nil =>
    intro s _
    cases h : findFirst q s <;> simp [h]
  | cons a p ih =>
    intro s hall
    have ha : q a = false := hall a (by simp)
    have hrec := ih s (fun c hc => hall c (by simp [hc]))
    rw [List.cons_append]
    simp only [findFirst, ha, Bool.false_eq_true, if_false, hrec,
      List.length_cons]
    cases h : findFirst q s with
    | none => simp
    | some k =>
      simp only [Option.map_some', Option.some.injEq]
      omega

theorem findLast_append_of_some (q : Char → Bool) :
    ∀ (p s : List Char) (k : Nat), findLast q s = some k →
      findLast q (p ++ s) = some (p.length + k) := by
  intro p
  induction p with
  | nil => intro s k h; simpa using h
  | cons a p ih =>
    intro s k h
    rw [List.cons_append]
    simp only [findLast, ih s k h, List.length_cons, Option.some.injEq]
    omega

theorem spanOf_concat (p m : List Char) (hp : ∀ c ∈ p, (c == '{') = false) :
    spanOf (p ++ ('{' :: (m ++ ['}'])))
      = some (p.length, p.length + m.length + 1) := by
  have hfirst : findFirst (fun c => c == '{') (p ++ ('{' :: (m ++ ['}'])))
      = some p.length := by
    rw [findFirst_append_of_none _ p _ hp]
    simp [findFirst]
  have hlast : findLast (fun c => c == '}') (p ++ ('{' :: (m ++ ['}'])))
      = some (p.length + m.length + 1) := by
    have hassoc : p ++ ('{' :: (m ++ ['}'])) = (p ++ ('{' :: m)) ++ ['}'] := by
      simp
    rw [hassoc]
    have hone : findLast (fun c => c == '}') ['}'] = some 0 := rfl
    rw [findLast_append_of_some _ _ _ 0 hone]
    simp
    omega
  have hij : p.length < p.length + m.length + 1 := by omega
  simp [spanOf, hfirst, hlast, hij]

theorem extract_fields_concat (p m : List Char) (d : List (String × PyVal))
    (hp : ∀ c ∈ p, (c == '{') = false)
    (hl : loads ('{' :: (m ++ ['}'])) = some (.obj d)) :
    extract_json_fields (p ++ ('{' :: (m ++ ['}'])))
      = (d, some ('{' :: (m ++ ['}']))) := by
  unfold extract_json_fields
  rw [spanOf_concat p m hp]
  have harith : p.length + m.length + 1 + 1 - p.length = m.length + 2 := by omega
  have hdrop : (p ++ ('{' :: (m ++ ['}']))).drop p.length = '{' :: (m ++ ['}']) :=
    List.drop_left p _
  have hlen : ('{' :: (m ++ ['}'])).length = m.length + 2 := by simp
  simp only [harith, hdrop, ← hlen, List.take_length, hl]

/-- C6: for raw text with no brace pair, the parser yields no command and
the stripped raw text as message; for prose (brace-free) followed by a
valid JSON object lacking a truthy `message` field, the message is the
stripped prose before the object.  Both halves of the parser are total
Lean functions, witnessing that they raise on no input. -/
theorem C6_message_fallback :
    (∀ s : List Char,
      (∀ j : Nat, j < s.length → ∀ i : Nat, i < j →
        ¬(s[i]? = some '{' ∧ s[j]? = some '}')) →
      extract_command s = none
        ∧ extract_message s = .str ((pyStrip s).asString))
    ∧ (∀ p m : List Char, ∀ d : List (String × PyVal),
      (∀ c ∈ p, (c == '{') = false) →
      loads ('{' :: (m ++ ['}'])) = some (.obj d) →
      truthy (dictGet d "message" (.str "")) = false →
      extract_message (p ++ ('{' :: (m ++ ['}']))) = .str ((pyStrip p).asString)) := by
  constructor
  · intro s h
    have hspan : spanOf s = none := by
      cases hf : findFirst (fun c => c == '{') s with
      | none => simp [spanOf, hf]
      | some i =>
        cases hl : findLast (fun c => c == '}') s with
        | none => simp [spanOf, hf, hl]
        | some j =>
          have hij : ¬i < j := by
            intro hij
            obtain ⟨c1, hc1, hq1⟩ := findFirst_get _ s i hf
            obtain ⟨c2, hc2, hq2⟩ := findLast_get _ s j hl
            have he1 : c1 = '{' := by simpa using hq1
            have he2 : c2 = '}' := by simpa using hq2
            have hjlen : j < s.length := by
              rcases List.getElem?_eq_some.mp hc2 with ⟨hlt, _⟩
              exact hlt
            exact h j hjlen i hij ⟨he1 ▸ hc1, he2 ▸ hc2⟩
          simp [spanOf, hf, hl, hij]
    have hfields : extract_json_fields s = ([], none) := by
      unfold extract_json_fields
      rw [hspan]
    constructor
    · simp [extract_command, dictGet, hfields, lookupLast, truthy]
    · simp [extract_message, dictGet, hfields, lookupLast, truthy, hspan]
  · intro p m d hp hl hmsg
    have hf := extract_fields_concat p m d hp hl
    unfold extract_message
    rw [hf]
    simp only [dictGet] at hmsg
    simp only [dictGet, hmsg, Bool.false_eq_true, if_false,
      spanOf_concat p m hp, List.take_left]

theorem C6_witness :
    (extract_command ("just some text".toList) = none
      ∧ extract_message ("just some text".toList) = .str "just some text")
    ∧ extract_message ("note ".toList ++ ('{' :: ("\"a\": 1".toList ++ ['}'])))
      = .str "note" :=
  ⟨C6_message_fallback.1 _ (by decide),
   C6_message_fallback.2 "note ".toList "\"a\": 1".toList [("a", .num 1)]
     (by decide) rfl rfl⟩

theorem C9_witness :
    wait_for_approval (fun _ => true) (fun _ => true)
      = ⟨true, some .approvedMarker, 0⟩
    ∧ (wait_for_approval (fun _ => false) (fun t => t == 0)).sleeps = 0 :=
  ⟨C9_gate_order.1 _ _ 0 (by decide) (by decide) (by decide) (by decide),
   C9_gate_order.2 _ _ (by decide)⟩

/-! Loop helper lemmas and concrete oracles. -/

theorem step_none_eq (o : Oracles) (hitl : Bool) (n : Nat) (msgs : List Message)
    (h : extract_command (o.llm msgs) = none) :
    step o hitl n msgs =
      .ok (.done (msgs ++ [⟨"assistant", o.llm msgs⟩]) (finalize (o.llm msgs))) := by
  unfold step
  rw [h]

theorem step_cmd_branches (o : Oracles) (hitl : Bool) (n : Nat)
    (msgs : List Message) (c : String)
    (h : extract_command (o.llm msgs) = some (.str c)) :
    step o hitl n msgs =
      (if is_dangerous c.toList && hitl then
        (if o.approval n then
          .ok (.next (runCommand o (msgs ++ [⟨"assistant", o.llm msgs⟩]) c))
         else
          .ok (.next ((msgs ++ [⟨"assistant", o.llm msgs⟩]) ++
            [⟨"user", "ERROR: Command denied by user".toList⟩])))
       else .ok (.next (runCommand o (msgs ++ [⟨"assistant", o.llm msgs⟩]) c))) := by
  unfold step
  rw [h]

theorem step_fault (o : Oracles) (hitl : Bool) (n : Nat) (msgs : List Message)
    (v : PyVal) (h : extract_command (o.llm msgs) = some v)
    (hv : ∀ s : String, v ≠ .str s) :
    step o hitl n msgs = .error .attrError := by
  unfold step
  rw [h]
  cases v with
  | str s => exact absurd rfl (hv s)
  | num k => rfl
  | float l => rfl
  | bool b => rfl
  | null => rfl
  | list xs => rfl
  | obj fields => rfl

theorem step_cmd_next (o : Oracles) (hitl : Bool) (n : Nat) (msgs : List Message)
    (c : String) (h : extract_command (o.llm msgs) = some (.str c)) :
    ∃ m2, step o hitl n msgs = .ok (.next m2) := by
  rw [step_cmd_branches o hitl n msgs c h]
  by_cases h1 : (is_dangerous c.toList && hitl) = true
  · rw [if_pos h1]
    by_cases h2 : o.approval n = true
    · rw [if_pos h2]; exact ⟨_, rfl⟩
    · rw [if_neg h2]; exact ⟨_, rfl⟩
  · rw [if_neg h1]; exact ⟨_, rfl⟩

def denyReply : List Char := "\x7b\"terminal\": \"rm -rf /tmp/x\"\x7d".toList

def oDeny : Oracles :=
  { llm := fun _ => denyReply, approval := fun _ => false, exec := fun _ => .ok [] }

def faultReply : List Char := "\x7b\"terminal\": 5\x7d".toList

def oFault : Oracles :=
  { llm := fun _ => faultReply, approval := fun _ => true, exec := fun _ => .ok [] }

def panelReply : List Char := "\x7b\"panelActions\": \"x\"\x7d".toList

def oPanel : Oracles :=
  { llm := fun _ => panelReply, approval := fun _ => true, exec := fun _ => .ok [] }

def panelListReply : List Char := "\x7b\"panelActions\": [1]\x7d".toList

def oPanelList : Oracles :=
  { llm := fun _ => panelListReply, approval := fun _ => true, exec := fun _ => .ok [] }

def cmdReply : List Char := "\x7b\"terminal\": \"ls\"\x7d".toList

def oCmd : Oracles :=
  { llm := fun _ => cmdReply, approval := fun _ => true, exec := fun _ => .ok [] }

def plainReply : List Char := "hello".toList

def oPlain : Oracles :=
  { llm := fun _ => plainReply, approval := fun _ => true, exec := fun _ => .ok [] }

def falsyReply : List Char := "\x7b\"terminal\": \"\"\x7d".toList

def oFalsy : Oracles :=
  { llm := fun _ => falsyReply, approval := fun _ => true, exec := fun _ => .ok [] }

/-- Does the reply avoid the non-string-terminal fault? -/
def cmdShapeOk (r : List Char) : Bool :=
  match extract_command r with
  | none => true
  | some (.str _) => true
  | some _ => false

/-- The run completed without an unhandled fault. -/
def noFault : Except Fault (List Message × Option Final) → Bool
  | .ok _ => true
  | .error _ => false

/-- The run stopped without emitting a final artifact (silent truncation). -/
def truncated : Except Fault (List Message × Option Final) → Bool
  | .ok (_, none) => true
  | _ => false

/-- The final artifact is the structured JSON record, not plain text. -/
def isJsonFinal : Final → Bool
  | .json _ => true
  | .plain _ => false

/-- Is the value a JSON sequence? -/
def isListVal : PyVal → Bool
  | .list _ => true
  | _ => false

theorem loopGo_no_fault (o : Oracles) (hitl : Bool)
    (h : ∀ ms : List Message, cmdShapeOk (o.llm ms) = true) :
    ∀ (fuel iters : Nat) (msgs : List Message),
      noFault (loopGo o hitl fuel iters msgs) = true := by
  intro fuel
  induction fuel with
  | zero => intro iters msgs; rfl
  | succ n ih =>
    intro iters msgs
    have hso : ∃ out, step o hitl (iters + 1) msgs = .ok out := by
      have hm := h msgs
      unfold cmdShapeOk at hm
      cases hc : extract_command (o.llm msgs) with
      | none => exact ⟨_, step_none_eq o hitl (iters + 1) msgs hc⟩
      | some v =>
        rw [hc] at hm
        cases v with
        | str c =>
          obtain ⟨m2, h2⟩ := step_cmd_next o hitl (iters + 1) msgs c hc
          exact ⟨_, h2⟩
        | num k => exact Bool.noConfusion hm
        | float l => exact Bool.noConfusion hm
        | bool b => exact Bool.noConfusion hm
        | null => exact Bool.noConfusion hm
        | list xs => exact Bool.noConfusion hm
        | obj fields => exact Bool.noConfusion hm
    obtain ⟨out, hout⟩ := hso
    cases out with
    | next m2 =>
      simp only [loopGo, hout]
      exact ih (iters + 1) m2
    | done m2 o2 =>
      simp only [loopGo, hout]
      rfl

/-- C2: with oversight enabled and a dangerous extracted command, a denied
gate (timeout included) appends the denial notice as a user-role message,
does not reach the executor, and the loop moves on to the next iteration;
the executor branch is taken only when the gate approved. -/
theorem C2_hitl_gate (o : Oracles) (fuel iters : Nat) (msgs : List Message)
    (c : String)
    (hc : extract_command (o.llm msgs) = some (.str c))
    (hd : is_dangerous c.toList = true) :
    (o.approval (iters + 1) = false →
      step o true (iters + 1) msgs =
        .ok (.next ((msgs ++ [⟨"assistant", o.llm msgs⟩]) ++
          [⟨"user", "ERROR: Command denied by user".toList⟩]))
      ∧ loopGo o true (fuel + 1) iters msgs =
        loopGo o true fuel (iters + 1)
          ((msgs ++ [⟨"assistant", o.llm msgs⟩]) ++
            [⟨"user", "ERROR: Command denied by user".toList⟩]))
    ∧ (o.approval (iters + 1) = true →
      step o true (iters + 1) msgs =
        .ok (.next (runCommand o (msgs ++ [⟨"assistant", o.llm msgs⟩]) c))) := by
  constructor
  · intro ha
    have hstep : step o true (iters + 1) msgs =
        .ok (.next ((msgs ++ [⟨"assistant", o.llm msgs⟩]) ++
          [⟨"user", "ERROR: Command denied by user".toList⟩])) := by
      rw [step_cmd_branches o true (iters + 1) msgs c hc]
      have hb : (is_dangerous c.toList && true) = true := by rw [hd]; rfl
      rw [if_pos hb, if_neg (by simp [ha] : ¬o.approval (iters + 1) = true)]
    refine ⟨hstep, ?_⟩
    simp only [loopGo, hstep]
  · intro ha
    rw [step_cmd_branches o true (iters + 1) msgs c hc]
    have hb : (is_dangerous c.toList && true) = true := by rw [hd]; rfl
    rw [if_pos hb, if_pos ha]

theorem C2_witness :
    step oDeny true 1 [] =
      .ok (.next (([] ++ [⟨"assistant", oDeny.llm []⟩]) ++
        [⟨"user", "ERROR: Command denied by user".toList⟩]))
    ∧ loopGo oDeny true 5 0 [] =
      loopGo oDeny true 4 1 (([] ++ [⟨"assistant", oDeny.llm []⟩]) ++
        [⟨"user", "ERROR: Command denied by user".toList⟩]) :=
  (C2_hitl_gate oDeny 4 0 [] "rm -rf /tmp/x" rfl rfl).1 rfl

/-- C3 counterexample: the claim says every reply is processed without
raising, including a non-string `terminal` value; but with the reply
`\x7b"terminal": 5\x7d` the first iteration applies `is_dangerous` to the
number 5 and the whole invocation aborts with an AttributeError. -/
theorem C3_counterexample : mainLoop oFault false [] = .error .attrError := rfl

/-- C3 (amended): provided the `terminal` field of each reply is either falsy
or a string, one full invocation of the loop never ends in an unhandled
fault — parse failures, denials and executor failures all degrade to
feedback text or a fallback message.  A truthy non-string `terminal`
(e.g. a number or a list) is the one exception and raises. -/
theorem C3_no_unhandled_fault (o : Oracles) (hitl : Bool)
    (h : ∀ ms : List Message, cmdShapeOk (o.llm ms) = true) :
    ∀ initMsgs : List Message, noFault (mainLoop o hitl initMsgs) = true :=
  fun initMsgs => loopGo_no_fault o hitl h 5 0 initMsgs

theorem C3_witness : noFault (mainLoop oPlain false []) = true :=
  C3_no_unhandled_fault oPlain false (fun _ => rfl) []

/-- C10 (implicit): a reply whose parsed object carries a falsy `terminal`
value (empty string, 0, false, null, empty list) yields no extracted
command, so that iteration takes the terminal branch: the assistant
message is appended, the structured final output is emitted, and nothing
is executed. -/
theorem C10_falsy_terminal (o : Oracles) (hitl : Bool) (n : Nat)
    (msgs : List Message) (d : List (String × PyVal)) (js : List Char) (v : PyVal)
    (hf : extract_json_fields (o.llm msgs) = (d, some js))
    (hv : lookupLast "terminal" d = some v)
    (hfalsy : truthy v = false) :
    extract_command (o.llm msgs) = none
    ∧ step o hitl n msgs =
      .ok (.done (msgs ++ [⟨"assistant", o.llm msgs⟩]) (finalize (o.llm msgs)))
    ∧ isJsonFinal (finalize (o.llm msgs)) = true := by
  have hcmd : extract_command (o.llm msgs) = none := by
    simp [extract_command, dictGet, hf, hv, hfalsy]
  have hdn : d ≠ [] := by
    intro he
    rw [he] at hv
    simp [lookupLast] at hv
  refine ⟨hcmd, step_none_eq o hitl n msgs hcmd, ?_⟩
  cases d with
  | nil => exact absurd rfl hdn
  | cons a t => simp [finalize, hf, isJsonFinal]

theorem C10_witness :
    extract_command (oFalsy.llm []) = none
    ∧ step oFalsy false 1 [] =
      .ok (.done ([] ++ [⟨"assistant", oFalsy.llm []⟩]) (finalize (oFalsy.llm [])))
    ∧ isJsonFinal (finalize (oFalsy.llm [])) = true :=
  C10_falsy_terminal oFalsy false 1 [] [("terminal", .str "")] falsyReply
    (.str "") rfl rfl rfl

/-- C5 counterexample: for the terminal reply `\x7b"panelActions": "x"\x7d`
(a non-empty mapping whose `panelActions` field is not a sequence), the
emitted final output carries the string `"x"` verbatim, not the empty
sequence the claim requires — the sequence check lives only in
`extract_panel_actions`, which the final emission does not use. -/
theorem C5_counterexample :
    mainLoop oPanel false [] =
      .ok ([⟨"assistant", panelReply⟩],
        some (.json ⟨.str "", .str "", .str "", .str "", .str "x"⟩))
    ∧ extract_panel_actions panelReply = .list []
    ∧ isListVal (.str "x") = false :=
  ⟨rfl, rfl, rfl⟩

/-- C5 (amended): for every terminal reply whose greedy span parses to a
non-empty mapping, the final output is exactly the five-field record
(userId, message, action, terminal, panelActions) with `terminal` always
the empty string and `panelActions` copied verbatim from the
reply field `panelActions` (empty sequence only when the field is absent); when
that field is a sequence the emission coincides with
`extract_panel_actions`, but a non-sequence value is passed through
unchecked. -/
theorem C5_final_emission (o : Oracles) (hitl : Bool) (n : Nat)
    (msgs : List Message) (d : List (String × PyVal)) (js : List Char)
    (hcmd : extract_command (o.llm msgs) = none)
    (hf : extract_json_fields (o.llm msgs) = (d, some js))
    (hne : d ≠ []) :
    step o hitl n msgs =
      .ok (.done (msgs ++ [⟨"assistant", o.llm msgs⟩])
        (.json ⟨extract_user_id (o.llm msgs), extract_message (o.llm msgs),
                extract_action (o.llm msgs), .str "",
                dictGet d "panelActions" (.list [])⟩))
    ∧ (∀ xs : List PyVal, dictGet d "panelActions" (.list []) = .list xs →
        extract_panel_actions (o.llm msgs) = dictGet d "panelActions" (.list [])) := by
  have hfin : finalize (o.llm msgs) =
      .json ⟨extract_user_id (o.llm msgs), extract_message (o.llm msgs),
             extract_action (o.llm msgs), .str "",
             dictGet d "panelActions" (.list [])⟩ := by
    cases d with
    | nil => exact absurd rfl hne
    | cons a t => simp [finalize, hf]
  constructor
  · rw [step_none_eq o hitl n msgs hcmd, hfin]
  · intro xs hxs
    simp [extract_panel_actions, hf, hxs]

theorem C5_witness :
    step oPanelList false 1 [] =
      .ok (.done ([] ++ [⟨"assistant", oPanelList.llm []⟩])
        (.json ⟨extract_user_id (oPanelList.llm []),
                extract_message (oPanelList.llm []),
                extract_action (oPanelList.llm []), .str "",
                dictGet [("panelActions", .list [.num 1])] "panelActions" (.list [])⟩))
    ∧ extract_panel_actions (oPanelList.llm [])
      = dictGet [("panelActions", .list [.num 1])] "panelActions" (.list []) :=
  ⟨(C5_final_emission oPanelList false 1 [] [("panelActions", .list [.num 1])]
      panelListReply rfl rfl (by simp)).1,
   (C5_final_emission oPanelList false 1 [] [("panelActions", .list [.num 1])]
      panelListReply rfl rfl (by simp)).2 [.num 1] rfl⟩

/-- C7 counterexample: on normal completion with empty captured output the
appended feedback message is the internal-output marker line followed by
the canned placeholder, not the bare placeholder string the claim names
(the marker prefix is part of the feedback). -/
theorem C7_counterexample :
    step oCmd false 1 [] =
      .ok (.next ([⟨"assistant", cmdReply⟩] ++
        [⟨"user", "[INTERNAL_COMMAND_OUTPUT]\n".toList ++
          "Command executed successfully with no output.".toList⟩]))
    ∧ (("[INTERNAL_COMMAND_OUTPUT]\n".toList ++
        "Command executed successfully with no output.".toList)
      == "Command executed successfully with no output.".toList) = false :=
  ⟨rfl, rfl⟩

/-- C7 (amended): for an extracted command that is non-dangerous, oversight-off, or
approved, the executor block appends exactly one user-role feedback
message and never propagates a fault: empty captured output becomes the
internal-output marker plus the canned placeholder
`Command executed successfully with no output.` (never a blank message),
non-empty output is passed through behind the marker, and any execution
failure (timeout included) becomes `ERROR executing command:` text; in
every case the loop continues. -/
theorem C7_executor_feedback (o : Oracles) (hitl : Bool) (n : Nat)
    (msgs : List Message) (c : String)
    (hc : extract_command (o.llm msgs) = some (.str c))
    (hgate : is_dangerous c.toList = false ∨ hitl = false ∨ o.approval n = true) :
    ∃ fb : List Char,
      step o hitl n msgs =
        .ok (.next ((msgs ++ [⟨"assistant", o.llm msgs⟩]) ++ [⟨"user", fb⟩]))
      ∧ fb ≠ []
      ∧ (o.exec c.toList = .ok [] →
          fb = "[INTERNAL_COMMAND_OUTPUT]\n".toList ++
            "Command executed successfully with no output.".toList)
      ∧ (∀ out : List Char, o.exec c.toList = .ok out → out ≠ [] →
          fb = "[INTERNAL_COMMAND_OUTPUT]\n".toList ++ out)
      ∧ (∀ e : List Char, o.exec c.toList = .exn e →
          fb = "ERROR executing command: ".toList ++ e) := by
  have hstep : step o hitl n msgs =
      .ok (.next (runCommand o (msgs ++ [⟨"assistant", o.llm msgs⟩]) c)) := by
    rw [step_cmd_branches o hitl n msgs c hc]
    by_cases hb : (is_dangerous c.toList && hitl) = true
    · have happ : o.approval n = true := by
        rw [Bool.and_eq_true] at hb
        rcases hgate with h1 | h1 | h1
        · rw [h1] at hb; exact absurd hb.1 (by simp)
        · rw [h1] at hb; exact absurd hb.2 (by simp)
        · exact h1
      rw [if_pos hb, if_pos happ]
    · rw [if_neg hb]
  cases he : o.exec c.toList with
  | ok out =>
    cases out with
    | nil =>
      refine ⟨"[INTERNAL_COMMAND_OUTPUT]\n".toList ++
        "Command executed successfully with no output.".toList, ?_, ?_, ?_, ?_, ?_⟩
      · rw [hstep]
        unfold runCommand
        rw [he]
        rfl
      · simp
      · intro _; rfl
      · intro out2 hrw hne2
        injection hrw with h2
        exact absurd h2.symm hne2
      · intro e hrw
        exact ExecResult.noConfusion hrw
    | cons a t =>
      refine ⟨"[INTERNAL_COMMAND_OUTPUT]\n".toList ++ (a :: t), ?_, ?_, ?_, ?_, ?_⟩
      · rw [hstep]
        unfold runCommand
        rw [he]
        rfl
      · simp
      · intro hrw
        injection hrw with h2
        exact absurd h2 (List.cons_ne_nil a t)
      · intro out2 hrw hne2
        injection hrw with h2
        rw [h2]
      · intro e hrw
        exact ExecResult.noConfusion hrw
  | exn e0 =>
    refine ⟨"ERROR executing command: ".toList ++ e0, ?_, ?_, ?_, ?_, ?_⟩
    · rw [hstep]
      unfold runCommand
      rw [he]
    · simp
    · intro hrw
      exact ExecResult.noConfusion hrw
    · intro out2 hrw hne2
      exact ExecResult.noConfusion hrw
    · intro e hrw
      injection hrw with h2
      rw [h2]

theorem C7_witness :
    step oCmd false 1 [] =
      .ok (.next (([] ++ [⟨"assistant", cmdReply⟩]) ++
        [⟨"user", "[INTERNAL_COMMAND_OUTPUT]\n".toList ++
          "Command executed successfully with no output.".toList⟩])) := by
  obtain ⟨fb, h1, h2, h3, h4, h5⟩ :=
    C7_executor_feedback oCmd false 1 [] "ls" rfl (Or.inl rfl)
  rw [h1, h3 rfl]
  rfl

/-- Number of assistant messages, i.e. of backend calls recorded so far. -/
def countAssistant (msgs : List Message) : Nat :=
  (msgs.filter (fun msg => msg.role == "assistant")).length

theorem countAssistant_append (a b : List Message) :
    countAssistant (a ++ b) = countAssistant a + countAssistant b := by
  simp [countAssistant, List.filter_append]

theorem countAssistant_assistant (msgs : List Message) (r : List Char) :
    countAssistant (msgs ++ [⟨"assistant", r⟩]) = countAssistant msgs + 1 := by
  rw [countAssistant_append]
  rfl

theorem countAssistant_user (msgs : List Message) (content : List Char) :
    countAssistant (msgs ++ [⟨"user", content⟩]) = countAssistant msgs := by
  rw [countAssistant_append]
  rfl

theorem countAssistant_runCommand (o : Oracles) (msgs : List Message) (c : String) :
    countAssistant (runCommand o msgs c) = countAssistant msgs := by
  unfold runCommand
  cases o.exec c.toList with
  | ok out => exact countAssistant_user msgs _
  | exn e => exact countAssistant_user msgs _

theorem countAssistant_step_next (o : Oracles) (hitl : Bool) (n : Nat)
    (msgs m2 : List Message) (h : step o hitl n msgs = .ok (.next m2)) :
    countAssistant m2 = countAssistant msgs + 1 := by
  cases hc : extract_command (o.llm msgs) with
  | none =>
    rw [step_none_eq o hitl n msgs hc] at h
    injection h with h2
    exact StepOut.noConfusion h2
  | some v =>
    cases v with
    | str c =>
      rw [step_cmd_branches o hitl n msgs c hc] at h
      by_cases hb : (is_dangerous c.toList && hitl) = true
      · rw [if_pos hb] at h
        by_cases ha : o.approval n = true
        · rw [if_pos ha] at h
          injection h with h2
          injection h2 with h3
          rw [← h3, countAssistant_runCommand, countAssistant_assistant]
        · rw [if_neg ha] at h
          injection h with h2
          injection h2 with h3
          rw [← h3, countAssistant_user, countAssistant_assistant]
      · rw [if_neg hb] at h
        injection h with h2
        injection h2 with h3
        rw [← h3, countAssistant_runCommand, countAssistant_assistant]
    | num k => rw [step_fault o hitl n msgs _ hc (fun s h2 => PyVal.noConfusion h2)] at h
               exact Except.noConfusion h
    | float l => rw [step_fault o hitl n msgs _ hc (fun s h2 => PyVal.noConfusion h2)] at h
                 exact Except.noConfusion h
    | bool b => rw [step_fault o hitl n msgs _ hc (fun s h2 => PyVal.noConfusion h2)] at h
                exact Except.noConfusion h
    | null => rw [step_fault o hitl n msgs _ hc (fun s h2 => PyVal.noConfusion h2)] at h
              exact Except.noConfusion h
    | list xs => rw [step_fault o hitl n msgs _ hc (fun s h2 => PyVal.noConfusion h2)] at h
                 exact Except.noConfusion h
    | obj fields => rw [step_fault o hitl n msgs _ hc (fun s h2 => PyVal.noConfusion h2)] at h
                    exact Except.noConfusion h

theorem countAssistant_step_done (o : Oracles) (hitl : Bool) (n : Nat)
    (msgs m2 : List Message) (out : Final)
    (h : step o hitl n msgs = .ok (.done m2 out)) :
    countAssistant m2 = countAssistant msgs + 1 := by
  cases hc : extract_command (o.llm msgs) with
  | none =>
    rw [step_none_eq o hitl n msgs hc] at h
    injection h with h2
    injection h2 with h3 h4
    rw [← h3, countAssistant_assistant]
  | some v =>
    cases v with
    | str c =>
      obtain ⟨mm, hmm⟩ := step_cmd_next o hitl n msgs c hc
      rw [hmm] at h
      injection h with h2
      exact StepOut.noConfusion h2
    | num k => rw [step_fault o hitl n msgs _ hc (fun s h2 => PyVal.noConfusion h2)] at h
               exact Except.noConfusion h
    | float l => rw [step_fault o hitl n msgs _ hc (fun s h2 => PyVal.noConfusion h2)] at h
                 exact Except.noConfusion h
    | bool b => rw [step_fault o hitl n msgs _ hc (fun s h2 => PyVal.noConfusion h2)] at h
                exact Except.noConfusion h
    | null => rw [step_fault o hitl n msgs _ hc (fun s h2 => PyVal.noConfusion h2)] at h
              exact Except.noConfusion h
    | list xs => rw [step_fault o hitl n msgs _ hc (fun s h2 => PyVal.noConfusion h2)] at h
                 exact Except.noConfusion h
    | obj fields => rw [step_fault o hitl n msgs _ hc (fun s h2 => PyVal.noConfusion h2)] at h
                    exact Except.noConfusion h

theorem loopGo_countAssistant (o : Oracles) (hitl : Bool) :
    ∀ (fuel iters : Nat) (msgs m2 : List Message) (out : Option Final),
      loopGo o hitl fuel iters msgs = .ok (m2, out) →
      countAssistant m2 ≤ countAssistant msgs + fuel := by
  intro fuel
  induction fuel with
  | zero =>
    intro iters msgs m2 out h
    injection h with h2
    injection h2 with ha hb
    rw [← ha]
    omega
  | succ n ih =>
    intro iters msgs m2 out h
    simp only [loopGo] at h
    cases hs : step o hitl (iters + 1) msgs with
    | error f =>
      rw [hs] at h
      exact Except.noConfusion h
    | ok so =>
      rw [hs] at h
      cases so with
      | next mm =>
        have hle := ih (iters + 1) mm m2 out h
        have heq := countAssistant_step_next o hitl (iters + 1) msgs mm hs
        omega
      | done mm oo =>
        injection h with h2
        injection h2 with ha hb
        have heq := countAssistant_step_done o hitl (iters + 1) msgs mm oo hs
        rw [← ha]
        omega

/-- C8: the loop performs at most 5 iterations — no completed run records
more than 5 new assistant (backend) replies — and always terminates (the
embedding is a total function of its fuel); it stops at the first reply
with no extracted command, emitting the final output in that iteration;
and when every reply yields a command the budget runs out and the loop
stops with no final artifact at all (silent truncation). -/
theorem C8_iteration_budget :
    (∀ (o : Oracles) (hitl : Bool) (initMsgs m2 : List Message) (out : Option Final),
      mainLoop o hitl initMsgs = .ok (m2, out) →
      countAssistant m2 ≤ countAssistant initMsgs + 5)
    ∧ (∀ (o : Oracles) (hitl : Bool),
      (∀ ms : List Message, ∃ c : String, extract_command (o.llm ms) = some (.str c)) →
      ∀ (fuel iters : Nat) (msgs : List Message),
        truncated (loopGo o hitl fuel iters msgs) = true)
    ∧ (∀ (o : Oracles) (hitl : Bool) (fuel iters : Nat) (msgs : List Message),
      extract_command (o.llm msgs) = none →
      loopGo o hitl (fuel + 1) iters msgs =
        .ok (msgs ++ [⟨"assistant", o.llm msgs⟩], some (finalize (o.llm msgs)))) := by
  refine ⟨?_, ?_, ?_⟩
  · intro o hitl initMsgs m2 out h
    exact loopGo_countAssistant o hitl 5 0 initMsgs m2 out h
  · intro o hitl h fuel
    induction fuel with
    | zero => intro iters msgs; rfl
    | succ n ih =>
      intro iters msgs
      obtain ⟨c, hc⟩ := h msgs
      obtain ⟨m2, hs⟩ := step_cmd_next o hitl (iters + 1) msgs c hc
      simp only [loopGo, hs]
      exact ih (iters + 1) m2
  · intro o hitl fuel iters msgs h
    simp only [loopGo, step_none_eq o hitl (iters + 1) msgs h]

theorem C8_witness :
    countAssistant [⟨"assistant", plainReply⟩]
      ≤ countAssistant ([] : List Message) + 5
    ∧ truncated (loopGo oCmd false 5 0 []) = true
    ∧ loopGo oPlain false 5 0 [] =
      .ok ([⟨"assistant", plainReply⟩], some (finalize plainReply)) :=
  ⟨C8_iteration_budget.1 oPlain false [] [⟨"assistant", plainReply⟩]
      (some (.plain (.str "hello"))) rfl,
   C8_iteration_budget.2.1 oCmd false (fun _ => ⟨"ls", rfl⟩) 5 0 [],
   C8_iteration_budget.2.2 oPlain false 4 0 [] rfl⟩
